import Mathlib

set_option maxRecDepth 8000

/-!
Shallow embedding of the vespalib ranking-expression parser
(`src/vespalib/src/vespa/vespalib/eval/function.cpp`).

The input text is modelled as an immutable `List Char` passed explicitly to
every operation (the C++ `ParseContext` keeps fixed `_begin`/`_end` pointers
that are never mutated).  The cursor is a position `pos : Nat` together with
the current character `curr : Char`, where the NUL character models both the
C++ `0` sentinel at end-of-input and the forced `curr = 0` after a failure.
Reading one past the end (`*(++_pos)` when `_pos == _end`) is modelled by
`List.getD` defaulting to NUL, matching the NUL-terminated buffers the C++
code reads from.

Machine integers: parameter indices and symbol ids are modelled as `Nat`/`Int`
(the C++ values are tiny compared to `INT_MAX`/`SIZE_MAX`, so no wraparound
can occur on the modelled inputs).  IEEE-754 doubles produced by `strtod` are
modelled as exact rationals; every literal appearing in the verified claims is
exactly representable.
-/

namespace vespalib
namespace eval

/-- The NUL sentinel character (C++ `_curr = 0`). -/
def zeroChar : Char := Char.ofNat 0

/-- C `isspace` on ASCII input (space, \t, \n, \v, \f, \r). -/
def isSpaceC (c : Char) : Bool :=
  c.toNat == 32 || c.toNat == 9 || c.toNat == 10 ||
  c.toNat == 11 || c.toNat == 12 || c.toNat == 13

/-- C `isdigit` on ASCII input. -/
def isDigitC (c : Char) : Bool :=
  decide (48 ≤ c.toNat ∧ c.toNat ≤ 57)

/-- C `isalpha` on ASCII input. -/
def isAlphaC (c : Char) : Bool :=
  decide ((65 ≤ c.toNat ∧ c.toNat ≤ 90) ∨ (97 ≤ c.toNat ∧ c.toNat ≤ 122))

/-- `is_ident` from function.cpp: identifier characters
`[A-Za-z0-9_@]`, additionally `$` when not the first character. -/
def is_ident (c : Char) (first : Bool) : Bool :=
  isAlphaC c || isDigitC c || c == '_' || c == '@' || (c == '$' && !first)

/-- `unhex` from function.cpp. -/
def unhex (c : Char) : Int :=
  if 48 ≤ c.toNat ∧ c.toNat ≤ 57 then (c.toNat : Int) - 48
  else if 97 ≤ c.toNat ∧ c.toNat ≤ 102 then (c.toNat : Int) - 97 + 10
  else if 65 ≤ c.toNat ∧ c.toNat ≤ 70 then (c.toNat : Int) - 65 + 10
  else -1

/-- The AST node model (spec §3; the node classes live in `basic_nodes.h` /
`tensor_nodes.h` / `operator_nodes.h` / `call_nodes.h`, which are not part of
the provided sources, so the variants are modelled from the spec's data
model).  A `BinaryOp` carries its operator identity by spelling; tensor
map/join carry their lambda `Function` flattened into root and parameter
list. -/
inductive Node where
  | Number (value : Rat)
  | String (value : List Char)
  | Symbol (id : Int)
  | Neg (child : Node)
  | Not (child : Node)
  | Array (children : List Node)
  | If (cond true_expr false_expr : Node) (p_true : Rat)
  | Let (name : List Char) (value expr : Node)
  | Error (message : List Char)
  | Call (name : List Char) (args : List Node)
  | BinaryOp (op : List Char) (lhs rhs : Node)
  | TensorSum (child : Node) (dimension : Option (List Char))
  | TensorMap (child : Node) (lambda_root : Node) (lambda_params : List (List Char))
  | TensorJoin (lhs rhs : Node) (lambda_root : Node) (lambda_params : List (List Char))

/-- A parsed `Function`: root node plus parameter names in index order. -/
structure Function where
  root : Node
  params : List (List Char)

/-- `Function::has_error`: the root is an Error node. -/
def Function.has_error (f : Function) : Bool :=
  match f.root with
  | Node.Error _ => true
  | _ => false

/-- `Function::get_error`: the Error message, or empty. -/
def Function.get_error (f : Function) : List Char :=
  match f.root with
  | Node.Error m => m
  | _ => []

/-- `Function::num_params`. -/
def Function.num_params (f : Function) : Nat := f.params.length

/-- `nodes::Symbol::UNDEF` (declared in basic_nodes.h, not under src/).
Modelled from the spec: a sentinel distinct from every parameter index (≥ 0)
and every let id (< 0 but small); the header uses `INT_MAX`. -/
def symbolUNDEF : Int := 2147483647

/-- `Params::lookup`: index of a name in the (index-ordered) parameter map.
The C++ `std::map<string,size_t>` keyed by name with index values is
represented as the index-ordered list of names. -/
def lookupIdx : List (List Char) → List Char → Option Nat
  | [], _ => none
  | p :: rest, tok => if p = tok then some 0 else (lookupIdx rest tok).map (· + 1)

/-- `Params::lookup_add`: existing index, or insert at the next index. -/
def lookup_add (names : List (List Char)) (tok : List Char) :
    Nat × List (List Char) :=
  match lookupIdx names tok with
  | some i => (i, names)
  | none => (names.length, names ++ [tok])

/-- The `ExplicitParams` constructor loop: add each name, recording whether
every `assert(lookup(param) == UNDEF)` held (i.e. no duplicates). -/
def explicit_build_go : List (List Char) → List (List Char) → Bool →
    List (List Char) × Bool
  | [], names, ok => (names, ok)
  | p :: rest, names, ok =>
      explicit_build_go rest (lookup_add names p).2
        (ok && (lookupIdx names p).isNone)

/-- Names and assertion status produced by the `ExplicitParams` constructor. -/
def explicit_build (ps : List (List Char)) : List (List Char) × Bool :=
  explicit_build_go ps [] true

/-- True iff the `ExplicitParams` constructor's assertions all hold. -/
def explicit_assert_ok (ps : List (List Char)) : Bool := (explicit_build ps).2

/-- A host-provided symbol extractor: given the input and the cursor
position, it returns the (possibly null) new position and the extracted
symbol text (the C++ `extract_symbol(pos, end, new_pos, symbol_out)`). -/
def SymbolExtractor : Type :=
  List Char → Nat → Option Nat × List Char

/-- One `ResolveContext` frame: a `Params` strategy (implicit flag plus the
index-ordered name list, inlined instead of referenced), the optional
symbol extractor and the let-binding name stack (push_back at the tail). -/
structure RFrame where
  implicitMode : Bool
  names : List (List Char)
  symbol_extractor : Option SymbolExtractor
  let_names : List (List Char)

/-- `Params::resolve` wrapped by `ResolveContext::resolve_param`: explicit
mode looks the name up (UNDEF when absent); implicit mode inserts on miss
(mutating the frame) and never fails. -/
def RFrame.resolve_param (f : RFrame) (name : List Char) : Int × RFrame :=
  if f.implicitMode then
    let r := lookup_add f.names name
    (Int.ofNat r.1, {f with names := r.2})
  else
    match lookupIdx f.names name with
    | some i => (Int.ofNat i, f)
    | none => (symbolUNDEF, f)

/-- The loop of `ResolveContext::resolve_let_name`: scan indices `k-1, k-2,
…, 0` (tail to head) and return `-(i+1)` for the first match. -/
def letScan (names : List (List Char)) (name : List Char) : Nat → Int
  | 0 => symbolUNDEF
  | k + 1 =>
    if names.getD k [] = name then -(Int.ofNat k + 1)
    else letScan names name k

/-- `ResolveContext::resolve_let_name`. -/
def resolveLetName (names : List (List Char)) (name : List Char) : Int :=
  letScan names name names.length

/-- An operator node as produced by the OperatorRepo: spelling, precedence
and associativity (operator_nodes.h is not under src/; modelled from the
spec, which specifies `do_before` as encapsulating precedence and
left/right associativity). -/
structure Op where
  sym : List Char
  prec : Nat
  left_assoc : Bool

/-- `Operator::do_before` (modelled from the spec §4.3): `self` on the top
of the stack is reduced before the incoming `other` iff it binds tighter,
or equally tight and is left-associative. -/
def Op.do_before (self other : Op) : Bool :=
  decide (other.prec < self.prec) ||
    (self.prec == other.prec && self.left_assoc)

/-- Modelled from the spec: the OperatorRepo catalog (operator_nodes.h is not
under src/).  Spellings and relative precedences follow the spec's examples
(`*` tighter than `+`, comparisons looser, `^` right-associative). -/
def op_list : List Op :=
  [⟨"||".toList, 10, true⟩, ⟨"&&".toList, 20, true⟩,
   ⟨"==".toList, 30, true⟩, ⟨"!=".toList, 30, true⟩, ⟨"~=".toList, 30, true⟩,
   ⟨"<=".toList, 30, true⟩, ⟨">=".toList, 30, true⟩,
   ⟨"<".toList, 30, true⟩, ⟨">".toList, 30, true⟩,
   ⟨"+".toList, 40, true⟩, ⟨"-".toList, 40, true⟩,
   ⟨"*".toList, 50, true⟩, ⟨"/".toList, 50, true⟩, ⟨"%".toList, 50, true⟩,
   ⟨"^".toList, 60, false⟩]

/-- `OperatorRepo::max_size()`: longest operator spelling. -/
def op_max_size : Nat := 2

/-- `OperatorRepo::create`: longest-prefix match of an operator spelling
against the peeked bytes (the C++ resizes the peeked string down until an
exact table hit, i.e. picks the longest spelling that prefixes it). -/
def op_create (peeked : List Char) : Option Op :=
  op_list.foldl
    (fun acc o =>
      if o.sym.isPrefixOf peeked then
        match acc with
        | none => some o
        | some b => if b.sym.length < o.sym.length then some o else some b
      else acc)
    none

/-- Modelled from the spec: the CallRepo catalog (call_nodes.h is not under
src/) maps function names to fixed arities; `map`/`join`/`sum`/`if`/`let`
are not in it (they are keyword-handled by the parser). -/
def call_list : List (List Char × Nat) :=
  [("min".toList, 2), ("max".toList, 2), ("sin".toList, 1),
   ("cos".toList, 1), ("pow".toList, 2), ("sqrt".toList, 1)]

/-- `CallRepo::create` reduced to the arity lookup. -/
def call_lookup (name : List Char) : Option Nat :=
  (call_list.find? (fun e => e.1 == name)).map (·.2)

/-- Character of the input at index `i`; NUL past the end (the C++ buffer is
NUL-terminated). -/
def charAt (input : List Char) (i : Nat) : Char := input.getD i zeroChar

/-- An input mark: `(position, current character)`. -/
structure InputMark where
  pos : Nat
  curr : Char

/-- The mutable part of `ParseContext` (the fixed `_begin`/`_end` input is
passed separately).  `extractor_calls` counts invocations of the symbol
extractor and `aborted` records a violated C++ `assert`; both are ghost
instrumentation that no parsing step reads. -/
structure PC where
  pos : Nat
  curr : Char
  failure : List Char
  expression_stack : List Node
  operator_stack : List Op
  op_mark : Nat
  resolve_stack : List RFrame
  extractor_calls : Nat
  aborted : Bool

/-- `ParseContext::get`. -/
def PC.get (s : PC) : Char := s.curr

/-- `ParseContext::eos`. -/
def PC.eos (s : PC) : Prop := s.curr = zeroChar

instance (s : PC) : Decidable s.eos := by
  unfold PC.eos; infer_instance

/-- `ParseContext::failed`. -/
def PC.failed (s : PC) : Prop := s.failure ≠ []

instance (s : PC) : Decidable s.failed := by
  unfold PC.failed; infer_instance

/-- `ParseContext::fail`: latch the first failure message and force
`curr = 0`. -/
def PC.fail (s : PC) (msg : List Char) : PC :=
  if s.failure = [] then {s with failure := msg, curr := zeroChar} else s

/-- `ParseContext::next`: advance if not at the sentinel and not past the
end; the character read one past the end is the NUL terminator. -/
def PC.next (s : PC) (input : List Char) : PC :=
  if s.curr ≠ zeroChar ∧ s.pos < input.length then
    {s with pos := s.pos + 1, curr := charAt input (s.pos + 1)}
  else
    {s with curr := zeroChar}

/-- `ParseContext::get_input_mark`. -/
def PC.get_input_mark (s : PC) : InputMark := ⟨s.pos, s.curr⟩

/-- `ParseContext::restore_input_mark`: restoring from the sentinel back to
a live character clears the failure latch (the single clearing path). -/
def PC.restore_input_mark (s : PC) (m : InputMark) : PC :=
  let s1 := if s.curr = zeroChar ∧ m.curr ≠ zeroChar
            then {s with failure := []} else s
  {s1 with pos := m.pos, curr := m.curr}

/-- `ParseContext::eat`. -/
def PC.eat (s : PC) (input : List Char) (c : Char) : PC :=
  if s.curr = c then s.next input
  else s.fail ("expected '".toList ++ [c] ++ "', but got '".toList ++
               [s.curr] ++ "'".toList)

/-- The loop of `ParseContext::skip_spaces`, fueled by the input length
(each iteration consumes one character, so the fuel can never run out). -/
def skip_spaces_go (input : List Char) : Nat → PC → PC
  | 0, s => s
  | n + 1, s =>
    if ¬ s.eos ∧ isSpaceC s.curr then skip_spaces_go input n (s.next input)
    else s

/-- `ParseContext::skip_spaces`. -/
def PC.skip_spaces (s : PC) (input : List Char) : PC :=
  skip_spaces_go input (input.length + 2) s

/-- `ParseContext::peek`: read up to `n` bytes ahead, NUL-padded past the
end (or entirely NUL after a failure forced `curr = 0`). -/
def PC.peek (s : PC) (input : List Char) (n : Nat) : List Char :=
  (List.range n).map
    (fun i => if s.curr ≠ zeroChar ∧ s.pos + i < input.length
              then charAt input (s.pos + i) else zeroChar)

/-- `ParseContext::skip`. -/
def PC.skip (s : PC) (input : List Char) : Nat → PC
  | 0 => s
  | n + 1 => (s.next input).skip input n

/-- Current (innermost) resolve frame (`ParseContext::resolver`; the stack
is never empty on any reachable path). -/
def PC.top_frame (s : PC) : RFrame :=
  s.resolve_stack.headD ⟨true, [], none, []⟩

/-- Replace the innermost resolve frame (models mutation through the
`resolver()` reference). -/
def PC.set_top_frame (s : PC) (f : RFrame) : PC :=
  {s with resolve_stack := f :: s.resolve_stack.tail}

/-- `ParseContext::push_resolve_context` (as used by `parse_lambda`: an
explicit-params resolver and no symbol extractor). -/
def PC.push_resolve_context (s : PC) (names : List (List Char)) : PC :=
  {s with resolve_stack := ⟨false, names, none, []⟩ :: s.resolve_stack}

/-- `ParseContext::pop_resolve_context` (the assert on a non-empty stack is
recorded in `aborted`). -/
def PC.pop_resolve_context (s : PC) : PC :=
  match s.resolve_stack with
  | [] => {s with aborted := true}
  | _ :: rest => {s with resolve_stack := rest}

/-- `ParseContext::push_let_binding`. -/
def PC.push_let_binding (s : PC) (name : List Char) : PC :=
  let f := s.top_frame
  s.set_top_frame {f with let_names := f.let_names ++ [name]}

/-- `ParseContext::pop_let_binding` (assert on non-empty recorded in
`aborted`). -/
def PC.pop_let_binding (s : PC) : PC :=
  let f := s.top_frame
  if f.let_names = [] then {s with aborted := true}
  else s.set_top_frame {f with let_names := f.let_names.dropLast}

/-- `ParseContext::resolve_let_ref`. -/
def PC.resolve_let_ref (s : PC) (name : List Char) : Int :=
  resolveLetName s.top_frame.let_names name

/-- `ParseContext::resolve_parameter` (implicit mode mutates the frame). -/
def PC.resolve_parameter (s : PC) (name : List Char) : Int × PC :=
  let r := s.top_frame.resolve_param name
  (r.1, s.set_top_frame r.2)

/-- `ParseContext::extract_symbol`: only with a configured extractor; clears
the symbol, restores the pre-identifier mark (possibly clearing the failure
latch), invokes the extractor unless at end-of-input, and accepts its result
only when `pos < new_pos ≤ end`. -/
def PC.extract_symbol (s : PC) (input : List Char) (symbol_in : List Char)
    (before_symbol : InputMark) : List Char × PC :=
  match s.top_frame.symbol_extractor with
  | none => (symbol_in, s)
  | some ex =>
    let s1 := s.restore_input_mark before_symbol
    if s1.eos then ([], s1)
    else
      let s2 := {s1 with extractor_calls := s1.extractor_calls + 1}
      match ex input s2.pos with
      | (some new_pos, sym) =>
        if s2.pos < new_pos ∧ new_pos ≤ input.length then
          let newCurr :=
            if new_pos < input.length then charAt input new_pos else zeroChar
          (sym, {s2 with pos := new_pos, curr := newCurr})
        else ([], s2)
      | (none, _) => ([], s2)

/-- `ParseContext::push_expression`. -/
def PC.push_expression (s : PC) (n : Node) : PC :=
  {s with expression_stack := n :: s.expression_stack}

/-- `ParseContext::pop_expression`: an empty stack latches the underflow
failure and synthesizes `Number(0.0)`. -/
def PC.pop_expression (s : PC) : Node × PC :=
  match s.expression_stack with
  | [] => (Node.Number 0, s.fail "expression stack underflow".toList)
  | n :: rest => (n, {s with expression_stack := rest})

/-- `ParseContext::num_expressions`. -/
def PC.num_expressions (s : PC) : Nat := s.expression_stack.length

/-- `ParseContext::num_operators`. -/
def PC.num_operators (s : PC) : Nat := s.operator_stack.length

/-- `ParseContext::apply_operator`: pop the operator, then rhs, then lhs,
and push the bound operator node (assert on a non-empty operator stack
recorded in `aborted`). -/
def PC.apply_operator (s : PC) : PC :=
  match s.operator_stack with
  | [] => {s with aborted := true}
  | op :: rest =>
    let s1 := {s with operator_stack := rest}
    let r1 := s1.pop_expression
    let r2 := r1.2.pop_expression
    r2.2.push_expression (Node.BinaryOp op.sym r2.1 r1.1)

/-- The reduction loop of `ParseContext::push_operator`, fueled by the
operator-stack depth (each step pops one operator). -/
def push_op_go : Nat → PC → Op → PC
  | 0, s, _ => s
  | n + 1, s, op =>
    match s.operator_stack with
    | [] => s
    | top :: _ =>
      if s.op_mark < s.operator_stack.length ∧ top.do_before op then
        push_op_go n s.apply_operator op
      else s

/-- `ParseContext::push_operator`. -/
def PC.push_operator (s : PC) (op : Op) : PC :=
  let s1 := push_op_go (s.operator_stack.length + 1) s op
  {s1 with operator_stack := op :: s1.operator_stack}

/-- The `"[%s]...[%s]...[%s]"` diagnostic format of
`ParseContext::get_result`. -/
def bracket_msg (before msg after : List Char) : List Char :=
  "[".toList ++ before ++ "]...[".toList ++ msg ++ "]...[".toList ++
  after ++ "]".toList

/-- `ParseContext::get_result`: fail on leftover input / stack imbalance,
then either wrap the latched failure in an Error node or pop the single
result. -/
def PC.get_result (s : PC) (input : List Char) : Node × PC :=
  let s1 := if ¬ s.eos ∨ s.num_expressions ≠ 1 ∨ 0 < s.num_operators
            then s.fail "incomplete parse".toList else s
  if s1.failure ≠ [] then
    (Node.Error (bracket_msg (input.take s1.pos) s1.failure
                  (input.drop s1.pos)), s1)
  else s1.pop_expression

/-- The character-collecting loop of `parse_string`, fueled by the input
length (every iteration starts on a live character and consumes at least
one, so the fuel can never run out).  Escape handling follows the C++
switch; a bad `\xHH` pair latches "bad hex quote" but the (mod-256) byte is
still appended, as in the source. -/
def parse_string_go (input : List Char) : Nat → PC → List Char → List Char × PC
  | 0, s, acc => (acc, s)
  | n + 1, s, acc =>
    if ¬ s.eos ∧ s.get ≠ '"' then
      if s.get = '\\' then
        let s1 := s.next input
        if s1.get = 'x' then
          let s2 := s1.next input
          let hex1 := unhex s2.get
          let s3 := s2.next input
          let hex2 := unhex s3.get
          let s4 := if hex1 < 0 ∨ hex2 < 0 then s3.fail "bad hex quote".toList
                    else s3
          let b := Char.ofNat (((hex1 * 16 + hex2) % 256 + 256) % 256).toNat
          parse_string_go input n (s4.next input) (acc ++ [b])
        else
          let r : PC × List Char :=
            if s1.get = '"' then (s1, acc ++ ['"'])
            else if s1.get = '\\' then (s1, acc ++ ['\\'])
            else if s1.get = 'f' then (s1, acc ++ [Char.ofNat 12])
            else if s1.get = 'n' then (s1, acc ++ ['\n'])
            else if s1.get = 'r' then (s1, acc ++ [Char.ofNat 13])
            else if s1.get = 't' then (s1, acc ++ ['\t'])
            else (s1.fail "bad quote".toList, acc)
          parse_string_go input n (r.1.next input) r.2
      else
        parse_string_go input n (s.next input) (acc ++ [s.get])
    else (acc, s)

/-- `parse_string`. -/
def parse_string (input : List Char) (s : PC) : PC :=
  let s1 := s.eat input '"'
  let r := parse_string_go input (input.length + 2) s1 []
  let s2 := r.2.eat input '"'
  s2.push_expression (Node.String r.1)

/-- Digit-run collector used by `parse_number` (`while get ∈ '0'..'9'`),
fueled by the input length. -/
def scan_digits_go (input : List Char) : Nat → PC → List Char × PC
  | 0, s => ([], s)
  | n + 1, s =>
    if isDigitC s.get then
      let r := scan_digits_go input n (s.next input)
      (s.get :: r.1, r.2)
    else ([], s)

def scan_digits (input : List Char) (s : PC) : List Char × PC :=
  scan_digits_go input (input.length + 2) s

/-- Numeric value of a digit run. -/
def digitsVal (ds : List Char) : Nat :=
  ds.foldl (fun a c => a * 10 + (c.toNat - 48)) 0

/-- Modelled from the spec: C `strtod` restricted to the decimal forms the
collector of `parse_number` can produce, together with the source's
"entire collected text consumed" check (`end == str.data() + str.size()`).
Returns the exact rational value, `none` when `strtod` would leave part of
the text unconsumed (or consume nothing). -/
def strtodFull (str : List Char) : Option Rat :=
  let sr : Rat × List Char :=
    match str with
    | '+' :: t => (1, t)
    | '-' :: t => (-1, t)
    | t => (1, t)
  let d1 := sr.2.takeWhile isDigitC
  let r1 := sr.2.dropWhile isDigitC
  let dr : List Char × List Char :=
    match r1 with
    | '.' :: t => (t.takeWhile isDigitC, t.dropWhile isDigitC)
    | t => ([], t)
  if d1.isEmpty && (r1.headD zeroChar ≠ '.' || dr.1.isEmpty) then none
  else
    let mant : Rat :=
      sr.1 * (digitsVal (d1 ++ dr.1) : Rat) / ((10 : Rat) ^ dr.1.length)
    match dr.2 with
    | [] => some mant
    | e :: t =>
      if e = 'e' ∨ e = 'E' then
        let ts : Bool × List Char :=
          match t with
          | '+' :: u => (true, u)
          | '-' :: u => (false, u)
          | u => (true, u)
        let ed := ts.2.takeWhile isDigitC
        let rest := ts.2.dropWhile isDigitC
        if ed.isEmpty || ¬ rest.isEmpty then none
        else some (if ts.1 then mant * (10 : Rat) ^ digitsVal ed
                   else mant / (10 : Rat) ^ digitsVal ed)
      else none

/-- `parse_number`: collect `c digits ['.' digits] [eE [+-] digits]`
starting with the current character, then convert via `strtod`, failing
when the conversion does not consume the whole collected text. -/
def parse_number (input : List Char) (s : PC) : PC :=
  let c0 := s.get
  let s1 := s.next input
  let r1 := scan_digits input s1
  let r2 : List Char × PC :=
    if r1.2.get = '.' then
      let rf := scan_digits input (r1.2.next input)
      ('.' :: rf.1, rf.2)
    else ([], r1.2)
  let r3 : List Char × PC :=
    if r2.2.get = 'e' ∨ r2.2.get = 'E' then
      let e := r2.2.get
      let se := r2.2.next input
      let rsg : List Char × PC :=
        if se.get = '+' ∨ se.get = '-' then ([se.get], se.next input)
        else ([], se)
      let rd := scan_digits input rsg.2
      (e :: rsg.1 ++ rd.1, rd.2)
    else ([], r2.2)
  let str := c0 :: r1.1 ++ r2.1 ++ r3.1
  match strtodFull str with
  | some v => r3.2.push_expression (Node.Number v)
  | none =>
    r3.2.fail ("invalid number: '".toList ++ str ++ "'".toList)

/-- Continuation-character loop of `get_ident`, fueled by the input
length. -/
def get_ident_go (input : List Char) : Nat → PC → List Char → List Char × PC
  | 0, s, acc => (acc, s)
  | n + 1, s, acc =>
    if is_ident s.get false then
      get_ident_go input n (s.next input) (acc ++ [s.get])
    else (acc, s)

/-- `get_ident`: skip spaces, then a maximal identifier (empty if the
current character cannot start one). -/
def get_ident (input : List Char) (s : PC) : List Char × PC :=
  let s1 := s.skip_spaces input
  if is_ident s1.get true then
    get_ident_go input (input.length + 2) (s1.next input) [s1.get]
  else ([], s1)

/-- `parse_symbol`: try the let-binding stack first; only on a miss restore
the pre-identifier mark, run the extractor (when configured) and resolve
the resulting name as a parameter. -/
def parse_symbol (input : List Char) (s : PC) (name : List Char)
    (before_name : InputMark) : Int × List Char × PC :=
  let id := s.resolve_let_ref name
  if id ≠ symbolUNDEF then (id, name, s)
  else
    let r := s.extract_symbol input name before_name
    let rp := r.2.resolve_parameter r.1
    (rp.1, r.1, rp.2)

/-- The reduction loop `while (num_operators > operator_mark)
apply_operator()` of `parse_expression`, fueled by the operator-stack
depth. -/
def reduce_ops_go : Nat → PC → PC
  | 0, s => s
  | n + 1, s =>
    if s.op_mark < s.operator_stack.length then reduce_ops_go n s.apply_operator
    else s

/-- `parse_operator`: peek `max_size` bytes, longest-prefix match in the
OperatorRepo, push and skip the matched spelling; otherwise latch
"invalid operator". -/
def parse_operator (input : List Char) (s : PC) : PC :=
  let s1 := s.skip_spaces input
  let str := s1.peek input op_max_size
  match op_create str with
  | some op => (s1.push_operator op).skip input op.sym.length
  | none =>
    s1.fail ("invalid operator: '".toList ++ [s1.get] ++ "'".toList)

/-- Message latched when the explicit recursion fuel runs out (never
reached for the concrete fuel values used below; kept total so that every
universally quantified theorem covers it). -/
def oofMsg : List Char := "out of fuel".toList

mutual

/-- `parse_expression`: save the operator mark, set it to the current
operator depth, and run the value/operator loop. -/
def parse_expression (input : List Char) (fuel : Nat) (s : PC) : PC :=
  match fuel with
  | 0 => s.fail oofMsg
  | n + 1 =>
    let old_mark := s.op_mark
    let s1 := {s with op_mark := s.operator_stack.length}
    parse_expr_loop input n old_mark s1

termination_by structural fuel

/-- The `for (;;)` loop of `parse_expression`: parse a value, then either
reduce down to the mark and restore it at a terminator
(EOS, `)`, `,`, `]`) or parse an operator and continue. -/
def parse_expr_loop (input : List Char) (fuel : Nat) (old_mark : Nat)
    (s : PC) : PC :=
  match fuel with
  | 0 => s.fail oofMsg
  | n + 1 =>
    let s1 := parse_value input n s
    let s2 := s1.skip_spaces input
    if s2.eos ∨ s2.get = ')' ∨ s2.get = ',' ∨ s2.get = ']' then
      let s3 := reduce_ops_go (s2.operator_stack.length + 1) s2
      {s3 with op_mark := old_mark}
    else
      parse_expr_loop input n old_mark (parse_operator input s2)

termination_by structural fuel

/-- `parse_value`: dispatch on the first non-space character. -/
def parse_value (input : List Char) (fuel : Nat) (s : PC) : PC :=
  match fuel with
  | 0 => s.fail oofMsg
  | n + 1 =>
    let s1 := s.skip_spaces input
    if s1.get = '-' then
      let s2 := parse_value input n (s1.next input)
      let r := s2.pop_expression
      r.2.push_expression (Node.Neg r.1)
    else if s1.get = '!' then
      let s2 := parse_value input n (s1.next input)
      let r := s2.pop_expression
      r.2.push_expression (Node.Not r.1)
    else if s1.get = '(' then
      let s2 := parse_expression input n (s1.next input)
      s2.eat input ')'
    else if s1.get = '[' then parse_array input n s1
    else if s1.get = '"' then parse_string input s1
    else if isDigitC s1.get then parse_number input s1
    else parse_symbol_or_call input n s1

termination_by structural fuel

/-- `parse_array`: `[`, elements separated by `,`, `]`. -/
def parse_array (input : List Char) (fuel : Nat) (s : PC) : PC :=
  match fuel with
  | 0 => s.fail oofMsg
  | n + 1 =>
    let s1 := s.eat input '['
    let s2 := s1.skip_spaces input
    parse_array_loop input n 0 [] s2

termination_by structural fuel

/-- The element loop of `parse_array` (`size` counts elements so that a
separating `,` is required from the second element on). -/
def parse_array_loop (input : List Char) (fuel : Nat) (size : Nat)
    (acc : List Node) (s : PC) : PC :=
  match fuel with
  | 0 => s.fail oofMsg
  | n + 1 =>
    if ¬ s.eos ∧ s.get ≠ ']' then
      let s1 := if 1 < size + 1 then s.eat input ',' else s
      let s2 := parse_expression input n s1
      let r := s2.pop_expression
      parse_array_loop input n (size + 1) (acc ++ [r.1]) r.2
    else
      (s.eat input ']').push_expression (Node.Array acc)

termination_by structural fuel

/-- `parse_symbol_or_call`: read an identifier; if a call follows, handle
it, otherwise resolve the identifier as a symbol. -/
def parse_symbol_or_call (input : List Char) (fuel : Nat) (s : PC) : PC :=
  match fuel with
  | 0 => s.fail oofMsg
  | n + 1 =>
    let before_name := s.get_input_mark
    let ri := get_ident input s
    let rc := try_parse_call input n ri.2 ri.1
    if rc.1 then rc.2
    else
      let rs := parse_symbol input rc.2 ri.1 before_name
      if rs.2.1 = [] then rs.2.2.fail "missing value".toList
      else if rs.1 = symbolUNDEF then
        rs.2.2.fail ("unknown symbol: '".toList ++ rs.2.1 ++ "'".toList)
      else rs.2.2.push_expression (Node.Symbol rs.1)

termination_by structural fuel

/-- `try_parse_call`: on a following `(`, dispatch keywords
`if`/`let`/CallRepo/`map`/`join`/`sum`; an unknown name latches a failure
and returns false WITHOUT consuming the closing `)`; known forms consume
it and return true. -/
def try_parse_call (input : List Char) (fuel : Nat) (s : PC)
    (name : List Char) : Bool × PC :=
  match fuel with
  | 0 => (false, s.fail oofMsg)
  | n + 1 =>
    let s1 := s.skip_spaces input
    if s1.get = '(' then
      let s2 := s1.eat input '('
      let res : Option PC :=
        if name = "if".toList then some (parse_if input n s2)
        else if name = "let".toList then some (parse_let input n s2)
        else
          match call_lookup name with
          | some arity => some (parse_call input n s2 name arity)
          | none =>
            if name = "map".toList then some (parse_tensor_map input n s2)
            else if name = "join".toList then some (parse_tensor_join input n s2)
            else if name = "sum".toList then some (parse_tensor_sum input n s2)
            else none
      match res with
      | some s3 => (true, s3.eat input ')')
      | none =>
        (false,
         s2.fail ("unknown function: '".toList ++ name ++ "'".toList))
    else (false, s1)

termination_by structural fuel

/-- `parse_if`: three comma-separated sub-expressions; an optional fourth
argument is parsed by `parse_number` (not as a general expression); the
popped node's value overrides the default `p_true = 0.5` only when that
node is a Number. -/
def parse_if (input : List Char) (fuel : Nat) (s : PC) : PC :=
  match fuel with
  | 0 => s.fail oofMsg
  | n + 1 =>
    let sa := parse_expression input n s
    let rc := sa.pop_expression
    let sb := rc.2.eat input ','
    let sc := parse_expression input n sb
    let rt := sc.pop_expression
    let sd := rt.2.eat input ','
    let se := parse_expression input n sd
    let rf := se.pop_expression
    let rp : Rat × PC :=
      if rf.2.get = ',' then
        let sf := rf.2.eat input ','
        let sg := parse_number input sf
        let rn := sg.pop_expression
        match rn.1 with
        | Node.Number v => (v, rn.2)
        | _ => (1/2, rn.2)
      else (1/2, rf.2)
    rp.2.push_expression (Node.If rc.1 rt.1 rf.1 rp.1)

termination_by structural fuel

/-- `parse_let`: name, value (outside the binding), body (under the
binding pushed onto the let stack and popped afterwards). -/
def parse_let (input : List Char) (fuel : Nat) (s : PC) : PC :=
  match fuel with
  | 0 => s.fail oofMsg
  | n + 1 =>
    let rn := get_ident input s
    let s1 := rn.2.skip_spaces input
    let s2 := s1.eat input ','
    let s3 := parse_expression input n s2
    let rv := s3.pop_expression
    let s4 := rv.2.eat input ','
    let s5 := s4.push_let_binding rn.1
    let s6 := parse_expression input n s5
    let re := s6.pop_expression
    let s7 := re.2.pop_let_binding
    s7.push_expression (Node.Let rn.1 rv.1 re.1)

termination_by structural fuel

/-- `parse_call`: a repo call with a fixed number of comma-separated
arguments. -/
def parse_call (input : List Char) (fuel : Nat) (s : PC)
    (name : List Char) (arity : Nat) : PC :=
  match fuel with
  | 0 => s.fail oofMsg
  | n + 1 =>
    let r := parse_call_go input n arity true s []
    r.2.push_expression (Node.Call name r.1)

termination_by structural fuel

/-- Argument loop of `parse_call` (`bind_next` accumulates in order). -/
def parse_call_go (input : List Char) (fuel : Nat) (remaining : Nat)
    (first : Bool) (s : PC) (acc : List Node) : List Node × PC :=
  match fuel with
  | 0 => (acc, s.fail oofMsg)
  | n + 1 =>
    match remaining with
    | 0 => (acc, s)
    | m + 1 =>
      let s1 := if first then s else s.eat input ','
      let s2 := parse_expression input n s1
      let r := s2.pop_expression
      parse_call_go input n m false r.2 (acc ++ [r.1])

termination_by structural fuel

/-- `get_ident_list`: `( ident , ident , … )`. -/
def get_ident_list (input : List Char) (fuel : Nat) (s : PC) :
    List (List Char) × PC :=
  match fuel with
  | 0 => ([], s.fail oofMsg)
  | n + 1 =>
    let s1 := s.skip_spaces input
    let s2 := s1.eat input '('
    let r := get_ident_list_loop input n (s2.skip_spaces input) []
    (r.1, r.2.eat input ')')

/-- Loop of `get_ident_list`; a separating `,` is required once the list
is non-empty. -/
def get_ident_list_loop (input : List Char) (fuel : Nat) (s : PC)
    (acc : List (List Char)) : List (List Char) × PC :=
  match fuel with
  | 0 => (acc, s.fail oofMsg)
  | n + 1 =>
    if ¬ s.eos ∧ s.get ≠ ')' then
      let s1 := if acc ≠ [] then s.eat input ',' else s
      let ri := get_ident input s1
      get_ident_list_loop input n (ri.2.skip_spaces input) (acc ++ [ri.1])
    else (acc, s)

termination_by structural fuel

/-- `parse_lambda`: `f ( idents ) ( body )`, the body parsed in a fresh
resolve context with an explicit-params resolver over the given names and
no symbol extractor.  A duplicate name violates the `ExplicitParams`
constructor assertion (recorded in `aborted`).  The returned Function
carries the RAW identifier list. -/
def parse_lambda (input : List Char) (fuel : Nat) (s : PC) :
    Function × PC :=
  match fuel with
  | 0 => (⟨Node.Number 0, []⟩, s.fail oofMsg)
  | n + 1 =>
    let s1 := s.skip_spaces input
    let s2 := s1.eat input 'f'
    let rl := get_ident_list input n s2
    let eb := explicit_build rl.1
    let s3 := if eb.2 then rl.2 else {rl.2 with aborted := true}
    let s4 := s3.push_resolve_context eb.1
    let s5 := s4.skip_spaces input
    let s6 := s5.eat input '('
    let s7 := parse_expression input n s6
    let s8 := s7.eat input ')'
    let s9 := s8.pop_resolve_context
    let r := s9.pop_expression
    (⟨r.1, rl.1⟩, r.2)

termination_by structural fuel

/-- `parse_tensor_map`: parses the child expression and the lambda and
checks the lambda arity, but — exactly as the source does — discards both
and pushes NO node onto the expression stack. -/
def parse_tensor_map (input : List Char) (fuel : Nat) (s : PC) : PC :=
  match fuel with
  | 0 => s.fail oofMsg
  | n + 1 =>
    let s1 := parse_expression input n s
    let rc := s1.pop_expression
    let s2 := rc.2.eat input ','
    let rl := parse_lambda input n s2
    if rl.1.num_params ≠ 1 then
      rl.2.fail ("map requires a lambda with 1 parameter, was ".toList ++
                 Nat.toDigits 10 rl.1.num_params)
    else rl.2

termination_by structural fuel

/-- `parse_tensor_join`: like `parse_tensor_map` (arity 2), also pushing
no node. -/
def parse_tensor_join (input : List Char) (fuel : Nat) (s : PC) : PC :=
  match fuel with
  | 0 => s.fail oofMsg
  | n + 1 =>
    let s1 := parse_expression input n s
    let rl := s1.pop_expression
    let s2 := rl.2.eat input ','
    let s3 := parse_expression input n s2
    let rr := s3.pop_expression
    let s4 := rr.2.eat input ','
    let rb := parse_lambda input n s4
    if rb.1.num_params ≠ 2 then
      rb.2.fail ("join requires a lambda with 2 parameter, was ".toList ++
                 Nat.toDigits 10 rb.1.num_params)
    else rb.2

termination_by structural fuel

/-- `parse_tensor_sum`: child plus optional dimension identifier. -/
def parse_tensor_sum (input : List Char) (fuel : Nat) (s : PC) : PC :=
  match fuel with
  | 0 => s.fail oofMsg
  | n + 1 =>
    let s1 := parse_expression input n s
    let rc := s1.pop_expression
    if rc.2.get = ',' then
      let s2 := rc.2.next input
      let rd := get_ident input s2
      let s3 := rd.2.skip_spaces input
      s3.push_expression (Node.TensorSum rc.1 (some rd.1))
    else
      rc.2.push_expression (Node.TensorSum rc.1 none)

termination_by structural fuel
end

/-- Initial `ParseContext` over an input and a root resolve frame. -/
def init_pc (frame : RFrame) (input : List Char) : PC :=
  { pos := 0, curr := charAt input 0, failure := [],
    expression_stack := [], operator_stack := [], op_mark := 0,
    resolve_stack := [frame], extractor_calls := 0, aborted := false }

/-- `Params::extract` at the end of parsing: the (index-ordered) names of
the original params object, i.e. of the bottom resolve frame. -/
def extract_params (c : PC) : List (List Char) :=
  (c.resolve_stack.getLastD ⟨true, [], none, []⟩).names

/-- The context after running `parse_expression` from the start state
(the state `parse_function` inspects). -/
def parse_run (frame : RFrame) (input : List Char) (fuel : Nat) : PC :=
  parse_expression input fuel (init_pc frame input)

/-- `parse_function`: on a latched failure with an implicit resolver the
parameter list is dropped, otherwise the resolver's accumulated parameters
are extracted. -/
def parse_function (frame : RFrame) (input : List Char) (fuel : Nat) :
    Function :=
  let c := parse_run frame input fuel
  if c.failed ∧ frame.implicitMode then ⟨(c.get_result input).1, []⟩
  else ⟨(c.get_result input).1, extract_params c⟩

/-- Root resolve frame for implicit-parameter parsing. -/
def implicit_frame (ex : Option SymbolExtractor) : RFrame :=
  ⟨true, [], ex, []⟩

/-- Root resolve frame for explicit-parameter parsing (names as deduped by
the `ExplicitParams` constructor). -/
def explicit_frame (ps : List (List Char)) (ex : Option SymbolExtractor) :
    RFrame :=
  ⟨false, (explicit_build ps).1, ex, []⟩

/-- `Function::parse(expression)`. -/
def Function.parse (expr : List Char) (fuel : Nat) : Function :=
  parse_function (implicit_frame none) expr fuel

/-- `Function::parse(expression, symbol_extractor)`. -/
def Function.parse_with_extractor (expr : List Char) (ex : SymbolExtractor)
    (fuel : Nat) : Function :=
  parse_function (implicit_frame (some ex)) expr fuel

/-- `Function::parse(params, expression)`: the `ExplicitParams` constructor
runs (and can abort on its assertion, modelled by `none`) before any
parsing happens. -/
def Function.parse_with_params (params : List (List Char))
    (expr : List Char) (fuel : Nat) : Option Function :=
  if explicit_assert_ok params then
    some (parse_function (explicit_frame params none) expr fuel)
  else none

/-- `Function::parse(params, expression, symbol_extractor)`. -/
def Function.parse_with_params_and_extractor (params : List (List Char))
    (expr : List Char) (ex : SymbolExtractor) (fuel : Nat) :
    Option Function :=
  if explicit_assert_ok params then
    some (parse_function (explicit_frame params (some ex)) expr fuel)
  else none

/-- Index just past a maximal run of `p`-characters starting at `i`
(the C++ `for (; pos < size && p(input[pos]); ++pos)`). -/
def skipIdx (p : Char → Bool) (input : List Char) (i : Nat) : Nat :=
  i + ((input.drop i).takeWhile p).length

/-- The backwards whitespace scan of `Function::unwrap`
(`for (; body_end > body_begin && isspace(input[body_end]); --body_end)`). -/
def back_scan (p : Char → Bool) (input : List Char) (lo : Nat) : Nat → Nat
  | 0 => 0
  | hi + 1 =>
    if lo < hi + 1 ∧ p (charAt input (hi + 1)) then back_scan p input lo hi
    else hi + 1

/-- `Function::unwrap`: strip an optional `IDENT ( body )` envelope,
returning `(ok, wrapper, body, error)`. -/
def Function.unwrap (input : List Char) :
    Bool × List Char × List Char × List Char :=
  let pos0 := skipIdx isSpaceC input 0
  let wrapper_begin := pos0
  let pos1 := skipIdx isAlphaC input pos0
  let wrapper_end := pos1
  if wrapper_end = wrapper_begin then
    (false, [], [], "could not extract wrapper name".toList)
  else
    let pos2 := skipIdx isSpaceC input pos1
    if pos2 = input.length ∨ charAt input pos2 ≠ '(' then
      (false, [], [], "could not match opening '('".toList)
    else
      let body_begin := pos2 + 1
      let body_end := back_scan isSpaceC input body_begin (input.length - 1)
      if charAt input body_end ≠ ')' then
        (false, [], [], "could not match closing ')'".toList)
      else
        (true, (input.take wrapper_end).drop wrapper_begin,
         (input.take body_end).drop body_begin, [])

/-- A concrete symbol extractor used in theorems below: it consumes the
whole remaining input and reports the symbol "b". -/
def ex_all_b : SymbolExtractor := fun input _pos => (some input.length, "b".toList)

/-- A concrete symbol extractor that reports failure by returning
`new_pos = pos` (no progress), together with a garbage symbol. -/
def ex_stay : SymbolExtractor := fun _input pos => (some pos, "junk".toList)

/-! ## Theorems -/

/-- Helper: `fail` with a non-empty message leaves the context failed
(either it latches the message or an earlier failure is already latched). -/
theorem fail_failed (s : PC) (msg : List Char) (hm : msg ≠ []) :
    (s.fail msg).failed := by
  unfold PC.fail PC.failed
  by_cases hf : s.failure = []
  · rw [if_pos hf]; exact hm
  · rw [if_neg hf]; exact hf

/-- Helper: `fail` on an unlatched context records exactly its message. -/
theorem fail_fresh (s : PC) (msg : List Char) (hf : s.failure = []) :
    (s.fail msg).failure = msg := by
  unfold PC.fail
  rw [if_pos hf]

/-- C9: popping from an empty expression stack latches the failure
"expression stack underflow" (when no earlier failure is latched; the
context is failed either way) and returns a freshly synthesized
`Number(0.0)` node in place of a real operand, so every caller of
`pop_expression` receives a valid node even in the underflow case. -/
theorem pop_expression_underflow (s : PC) (h : s.expression_stack = []) :
    (s.pop_expression).1 = Node.Number 0 ∧ (s.pop_expression).2.failed ∧
    (s.failure = [] →
      (s.pop_expression).2.failure = "expression stack underflow".toList) := by
  have he : s.pop_expression =
      (Node.Number 0, s.fail "expression stack underflow".toList) := by
    unfold PC.pop_expression; rw [h]
  rw [he]
  refine ⟨rfl, fail_failed s _ (by decide), fun hf => fail_fresh s _ hf⟩

/-- C9 witness: the underflow contract evaluated at the initial context of
an empty parse. -/
theorem pop_expression_underflow_witness :
    ((init_pc (implicit_frame none) []).pop_expression).1 = Node.Number 0 ∧
    ((init_pc (implicit_frame none) []).pop_expression).2.failed ∧
    ((init_pc (implicit_frame none) []).failure = [] →
      ((init_pc (implicit_frame none) []).pop_expression).2.failure =
        "expression stack underflow".toList) :=
  pop_expression_underflow (init_pc (implicit_frame none) []) rfl

/-- C1 (code_bug evidence): on the spec's own example
`map(t, f(v)(v+1))` with explicit parameters `["t"]`, the parser never
pushes a TensorMap node — `parse_tensor_map` pops the child, parses and
arity-checks the lambda, and discards both — so the expression stack ends
empty and the result is an `incomplete parse` Error, not a TensorMap. -/
theorem map_never_pushes_tensor_map :
    Function.parse_with_params ["t".toList] "map(t, f(v)(v+1))".toList 500 =
      some ⟨Node.Error "[map(t, f(v)(v+1))]...[incomplete parse]...[]".toList,
            ["t".toList]⟩ ∧
    (parse_run (explicit_frame ["t".toList] none)
      "map(t, f(v)(v+1))".toList 500).expression_stack = [] ∧
    (parse_run (explicit_frame ["t".toList] none)
      "map(t, f(v)(v+1))".toList 500).failure = [] :=
  ⟨rfl, rfl, rfl⟩

/-- C2 counterexample: on input `a)` in implicit mode, parsing stops at the
unconsumed `)` with no latched failure, `get_result` then latches
"incomplete parse", and the returned Function has an Error root together
with the NON-empty parameter list `["a"]` — refuting the claim that an
Error root always comes with an empty parameter list. -/
theorem implicit_error_root_with_nonempty_params :
    (Function.parse "a)".toList 500).has_error = true ∧
    (Function.parse "a)".toList 500).params = ["a".toList] ∧
    ["a".toList] ≠ ([] : List (List Char)) :=
  ⟨rfl, rfl, by decide⟩

/-- C2 (amended): if the failure latch is set at the moment
`parse_expression` returns (the condition `parse_function` actually
tests), an implicit-mode parse returns an empty parameter list.  (When the
failure only arises inside `get_result` — e.g. leftover input — the
discovered parameters are returned with the Error root.) -/
theorem implicit_failure_latch_empty_params (frame : RFrame)
    (input : List Char) (fuel : Nat) (himp : frame.implicitMode = true)
    (hfail : (parse_run frame input fuel).failed) :
    (parse_function frame input fuel).params = [] := by
  unfold parse_function
  rw [if_pos ⟨hfail, himp⟩]

/-- C2 witness: the failing implicit parse of `+` returns no parameters. -/
theorem implicit_failure_latch_empty_params_witness :
    (parse_function (implicit_frame none) "+".toList 500).params = [] :=
  implicit_failure_latch_empty_params (implicit_frame none) "+".toList 500
    rfl (by decide)

/-- C7 counterexample: in `if(1,2,3,x)` the fourth argument is non-numeric,
yet the constructed If node does NOT retain the default `p_true = 0.5`: the
failing `parse_number` pushes nothing, so the following `pop_expression`
underflows and synthesizes `Number(0.0)`, whose value 0 becomes `p_true`. -/
theorem if_nonnumeric_p_true_not_default :
    (parse_run (implicit_frame none) "if(1,2,3,x)".toList 500).expression_stack =
      [Node.If (Node.Number 1) (Node.Number 2) (Node.Number 3) 0] ∧
    (0 : Rat) ≠ 1/2 := by
  refine ⟨by with_unfolding_all rfl, by norm_num⟩

/-- C7 (amended): the optional fourth `if` argument is parsed via
`parse_number`, not as a general expression (a parenthesized `(4)` fails
with "invalid number"); a numeric literal becomes `p_true` (0.25 example);
but when the fourth argument is non-numeric, the parse fails with
"invalid number" and the If node is built with `p_true` taken from
whatever Number node `pop_expression` returns — the synthesized 0.0 on an
empty stack, or a previously pushed operand (`1+if(1,2,3,x)` yields
`p_true = 1`) — retaining 0.5 only when the popped node is not a Number
(`a+if(1,2,3,x)`). -/
theorem if_p_true_via_parse_number :
    Function.parse "if(a>b,1,0,0.25)".toList 500 =
      ⟨Node.If (Node.BinaryOp ">".toList (Node.Symbol 0) (Node.Symbol 1))
        (Node.Number 1) (Node.Number 0) (1/4),
       ["a".toList, "b".toList]⟩ ∧
    (Function.parse "if(1,2,3,(4))".toList 500).get_error =
      "[if(1,2,3,(4]...[invalid number: '(4']...[))]".toList ∧
    (parse_run (implicit_frame none) "1+if(1,2,3,x)".toList 500).expression_stack =
      [Node.BinaryOp "+".toList (Node.Number 0)
        (Node.If (Node.Number 1) (Node.Number 2) (Node.Number 3) 1)] ∧
    (parse_run (implicit_frame none) "a+if(1,2,3,x)".toList 500).expression_stack =
      [Node.BinaryOp "+".toList (Node.Number 0)
        (Node.If (Node.Number 1) (Node.Number 2) (Node.Number 3) (1/2))] ∧
    (parse_run (implicit_frame none) "if(1,2,3,x)".toList 500).failure =
      "invalid number: 'x'".toList := by
  refine ⟨by with_unfolding_all rfl, by with_unfolding_all rfl,
    by with_unfolding_all rfl, by with_unfolding_all rfl,
    by with_unfolding_all rfl⟩

/-- C3 counterexample: with extractor `ex_all_b` configured and explicit
parameters `["a", "b"]`, the bare identifier `a` DOES resolve as a
parameter (index 0), yet the extractor is still invoked (once), replaces
the name by "b", and the parse returns `Symbol(1)` instead of `Symbol(0)`
— refuting the claim that an identifier resolving as a parameter is never
handed to the extractor. -/
theorem extractor_invoked_despite_parameter_match :
    lookupIdx (explicit_frame ["a".toList, "b".toList] (some ex_all_b)).names
      "a".toList = some 0 ∧
    (parse_run (explicit_frame ["a".toList, "b".toList] (some ex_all_b))
      "a".toList 500).extractor_calls = 1 ∧
    Function.parse_with_params_and_extractor ["a".toList, "b".toList]
      "a".toList ex_all_b 500 =
      some ⟨Node.Symbol 1, ["a".toList, "b".toList]⟩ :=
  ⟨rfl, rfl, rfl⟩

/-- Helper: restoring an input mark never changes the extractor-call
count. -/
theorem restore_extractor_calls (s : PC) (m : InputMark) :
    (s.restore_input_mark m).extractor_calls = s.extractor_calls := by
  unfold PC.restore_input_mark
  split <;> rfl

/-- Helper: parameter resolution never changes the extractor-call count. -/
theorem resolve_parameter_extractor_calls (s : PC) (name : List Char) :
    (s.resolve_parameter name).2.extractor_calls = s.extractor_calls := rfl

/-- C3 (amended): the extractor is consulted exactly when the bare
identifier fails to resolve as a let-binding reference (with an extractor
configured and input remaining after the mark restore) — parameter
resolution is NOT tried first, so even an identifier that resolves as a
parameter is handed to the extractor; the (possibly replaced) name is
resolved as a parameter afterwards. -/
theorem extractor_invoked_on_let_miss (input : List Char) (s : PC)
    (name : List Char) (mark : InputMark) (ex : SymbolExtractor)
    (hlet : s.resolve_let_ref name = symbolUNDEF)
    (hex : s.top_frame.symbol_extractor = some ex)
    (heos : ¬ (s.restore_input_mark mark).eos) :
    (parse_symbol input s name mark).2.2.extractor_calls =
      s.extractor_calls + 1 := by
  unfold parse_symbol
  rw [hlet, if_neg (by simp)]
  unfold PC.extract_symbol
  rw [hex]
  simp only [if_neg heos]
  rcases hres : ex input (s.restore_input_mark mark).pos with ⟨np, sym⟩
  cases np with
  | none =>
    simp only [hres, resolve_parameter_extractor_calls,
      restore_extractor_calls]
  | some v =>
    simp only [hres]
    split
    · simp only [resolve_parameter_extractor_calls,
        restore_extractor_calls]
    · simp only [resolve_parameter_extractor_calls,
        restore_extractor_calls]

/-- C3 amended, witness: parsing the bare identifier `q` (no let bindings,
extractor configured, input available) bumps the extractor-call count from
0 to 1. -/
theorem extractor_invoked_on_let_miss_witness :
    (parse_symbol "q".toList (init_pc (implicit_frame (some ex_all_b)) "q".toList)
      "q".toList ⟨0, 'q'⟩).2.2.extractor_calls =
      (init_pc (implicit_frame (some ex_all_b)) "q".toList).extractor_calls + 1 :=
  extractor_invoked_on_let_miss "q".toList
    (init_pc (implicit_frame (some ex_all_b)) "q".toList) "q".toList
    ⟨0, 'q'⟩ ex_all_b rfl rfl (by decide)

/-- C8: when the symbol extractor is invoked and reports failure — a null
new position, one not beyond the current position, or one past the end —
the cursor stays at the restored pre-identifier mark and the extracted
symbol string is empty. -/
theorem extract_symbol_failure_contract (input : List Char) (s : PC)
    (symbol_in : List Char) (mark : InputMark) (ex : SymbolExtractor)
    (hex : s.top_frame.symbol_extractor = some ex)
    (heos : ¬ (s.restore_input_mark mark).eos)
    (hbad : (ex input (s.restore_input_mark mark).pos).1 = none ∨
      ∃ np, (ex input (s.restore_input_mark mark).pos).1 = some np ∧
        (np ≤ (s.restore_input_mark mark).pos ∨ input.length < np)) :
    (s.extract_symbol input symbol_in mark).1 = [] ∧
    (s.extract_symbol input symbol_in mark).2.pos = mark.pos ∧
    (s.extract_symbol input symbol_in mark).2.curr = mark.curr := by
  have hpos : (s.restore_input_mark mark).pos = mark.pos := by
    unfold PC.restore_input_mark; split <;> rfl
  have hcurr : (s.restore_input_mark mark).curr = mark.curr := by
    unfold PC.restore_input_mark; split <;> rfl
  unfold PC.extract_symbol
  rw [hex]
  simp only [if_neg heos]
  rcases hres : ex input (s.restore_input_mark mark).pos with ⟨np, sym⟩
  cases np with
  | none => simp only [hres]; exact ⟨by trivial, hpos, hcurr⟩
  | some v =>
    simp only [hres]
    rcases hbad with hb | ⟨np', hnp', hb⟩
    · rw [hres] at hb; cases hb
    · rw [hres] at hnp'
      injection hnp' with hv
      subst hv
      have hcond : ¬ ((s.restore_input_mark mark).pos < v ∧
          v ≤ input.length) := by
        rintro ⟨h1, h2⟩
        rcases hb with hb | hb <;> omega
      rw [if_neg hcond]
      exact ⟨by trivial, hpos, hcurr⟩

/-- C8 witness: the contract evaluated with the no-progress extractor
`ex_stay` on input `ab` from the mark `(0, 'a')`. -/
theorem extract_symbol_failure_contract_witness :
    ((init_pc (implicit_frame (some ex_stay)) "ab".toList).extract_symbol
      "ab".toList "a".toList ⟨0, 'a'⟩).1 = [] ∧
    ((init_pc (implicit_frame (some ex_stay)) "ab".toList).extract_symbol
      "ab".toList "a".toList ⟨0, 'a'⟩).2.pos = (⟨0, 'a'⟩ : InputMark).pos ∧
    ((init_pc (implicit_frame (some ex_stay)) "ab".toList).extract_symbol
      "ab".toList "a".toList ⟨0, 'a'⟩).2.curr = (⟨0, 'a'⟩ : InputMark).curr :=
  extract_symbol_failure_contract "ab".toList
    (init_pc (implicit_frame (some ex_stay)) "ab".toList)
    "ab".toList ⟨0, 'a'⟩ ex_stay rfl (by decide)
    (Or.inr ⟨0, rfl, Or.inl (by decide)⟩)

/-- Helper: whenever the context coming out of `get_result` is failed, the
returned root is an Error node carrying the bracketed diagnostic built
from the text before and after the final cursor position. -/
theorem get_result_failed_shape (c : PC) (input : List Char)
    (h : (c.get_result input).2.failed) :
    (c.get_result input).1 =
      Node.Error (bracket_msg (input.take (c.get_result input).2.pos)
        (c.get_result input).2.failure
        (input.drop (c.get_result input).2.pos)) := by
  unfold PC.get_result at h ⊢
  by_cases hc : (¬ c.eos ∨ c.num_expressions ≠ 1 ∨ 0 < c.num_operators)
  · simp only [if_pos hc] at h ⊢
    have hf : (c.fail "incomplete parse".toList).failure ≠ [] :=
      fail_failed c _ (by decide)
    rw [if_pos hf]
  · simp only [if_neg hc] at h ⊢
    by_cases hf : c.failure = []
    · exfalso
      push_neg at hc
      have h1 : c.num_expressions = 1 := hc.2.1
      rw [if_neg (by simpa using hf)] at h
      rcases hstack : c.expression_stack with _ | ⟨n, rest⟩
      · unfold PC.num_expressions at h1
        rw [hstack] at h1
        simp at h1
      · unfold PC.pop_expression at h
        rw [hstack] at h
        exact h hf
    · rw [if_pos (by simpa using hf)]

/-- C5: for every run on which parsing fails (the failure latch is set
when `get_result` finishes), the returned Function has an Error root,
`get_error` is `"[<prefix>]...[<msg>]...[<suffix>]"` where `<prefix>` is
the input up to the cursor position at failure and `<suffix>` the rest,
and `<prefix> ++ <suffix>` reconstructs the original input. -/
theorem error_surface_brackets (frame : RFrame) (input : List Char)
    (fuel : Nat)
    (hfail : ((parse_run frame input fuel).get_result input).2.failed) :
    (parse_function frame input fuel).has_error = true ∧
    (parse_function frame input fuel).get_error =
      bracket_msg
        (input.take ((parse_run frame input fuel).get_result input).2.pos)
        ((parse_run frame input fuel).get_result input).2.failure
        (input.drop ((parse_run frame input fuel).get_result input).2.pos) ∧
    input.take ((parse_run frame input fuel).get_result input).2.pos ++
      input.drop ((parse_run frame input fuel).get_result input).2.pos =
      input := by
  have hroot := get_result_failed_shape (parse_run frame input fuel) input hfail
  have hpf : (parse_function frame input fuel).root =
      ((parse_run frame input fuel).get_result input).1 := by
    simp only [parse_function]
    split <;> rfl
  refine ⟨?_, ?_, List.take_append_drop _ _⟩
  · unfold Function.has_error
    rw [hpf, hroot]
  · unfold Function.get_error
    rw [hpf, hroot]

/-- C5 witness: the failing implicit parse of `+` surfaces the bracketed
diagnostic. -/
theorem error_surface_brackets_witness :
    (parse_function (implicit_frame none) "+".toList 500).has_error = true ∧
    (parse_function (implicit_frame none) "+".toList 500).get_error =
      bracket_msg
        ("+".toList.take ((parse_run (implicit_frame none) "+".toList 500).get_result
          "+".toList).2.pos)
        ((parse_run (implicit_frame none) "+".toList 500).get_result "+".toList).2.failure
        ("+".toList.drop ((parse_run (implicit_frame none) "+".toList 500).get_result
          "+".toList).2.pos) ∧
    "+".toList.take ((parse_run (implicit_frame none) "+".toList 500).get_result
        "+".toList).2.pos ++
      "+".toList.drop ((parse_run (implicit_frame none) "+".toList 500).get_result
        "+".toList).2.pos = "+".toList :=
  error_surface_brackets (implicit_frame none) "+".toList 500 (by decide)

/-- Helper: `getD` within bounds yields a member of the list. -/
theorem getD_mem_of_lt {α : Type} (l : List α) (d : α) (n : Nat)
    (h : n < l.length) : l.getD n d ∈ l := by
  rw [List.getD_eq_getElem l d h]
  exact List.getElem_mem h

/-- Helper: the let scan passes over any top range of indices holding
names different from the sought one. -/
theorem letScan_skip (names : List (List Char)) (x : List Char) (lo : Nat) :
    ∀ k, lo ≤ k → (∀ j, lo ≤ j → j < k → names.getD j [] ≠ x) →
      letScan names x k = letScan names x lo := by
  intro k
  induction k with
  | zero =>
    intro hle _
    have h0 : lo = 0 := Nat.le_zero.mp hle
    rw [h0]
  | succ m ih =>
    intro hle hne
    rcases Nat.eq_or_lt_of_le hle with heq | hlt
    · rw [heq]
    · have hm : names.getD m [] ≠ x := hne m (by omega) (by omega)
      have hstep : letScan names x (m + 1) = letScan names x m := by
        simp only [letScan]
        rw [if_neg hm]
      rw [hstep]
      exact ih (by omega) (fun j ha hb => hne j ha (by omega))

/-- Helper: scanning any depth of a stack that does not hold the name
yields UNDEF. -/
theorem letScan_notmem (names : List (List Char)) (x : List Char)
    (hx : x ∉ names) :
    ∀ k, k ≤ names.length → letScan names x k = symbolUNDEF := by
  intro k
  induction k with
  | zero => intro _; rfl
  | succ m ih =>
    intro hk
    have hm : names.getD m [] ≠ x := by
      intro heq
      exact hx (heq ▸ getD_mem_of_lt names [] m (by omega))
    simp only [letScan]
    rw [if_neg hm]
    exact ih (by omega)

/-- C6: let-binding scoping.  (1) A name on the let stack resolves to the
negative id `-(i+1)` of its innermost (largest-index) binding — shadowing
is innermost-first; (2) a name not on the stack resolves to UNDEF;
(3) `parse_symbol` returns a successful let resolution directly, leaving
the context untouched (no extractor, no parameter lookup); (4) end to end,
in `let(x,x,x)` the occurrence of `x` inside the value resolves as
parameter 0 (the binding is not in scope outside the body) while the body
occurrence is `Symbol(-1)`; (5) nested bindings of the same name resolve
to the innermost id `-2`. -/
theorem let_binding_scoping :
    (∀ (L1 L2 : List (List Char)) (x : List Char), x ∉ L2 →
      resolveLetName (L1 ++ x :: L2) x = -(Int.ofNat L1.length + 1) ∧
      resolveLetName (L1 ++ x :: L2) x < 0) ∧
    (∀ (L : List (List Char)) (x : List Char), x ∉ L →
      resolveLetName L x = symbolUNDEF) ∧
    (∀ (input : List Char) (s : PC) (name : List Char) (mark : InputMark),
      s.resolve_let_ref name ≠ symbolUNDEF →
      parse_symbol input s name mark = (s.resolve_let_ref name, name, s)) ∧
    Function.parse "let(x,x,x)".toList 500 =
      ⟨Node.Let "x".toList (Node.Symbol 0) (Node.Symbol (-1)), ["x".toList]⟩ ∧
    Function.parse "let(x,1,let(x,2,x))".toList 500 =
      ⟨Node.Let "x".toList (Node.Number 1)
        (Node.Let "x".toList (Node.Number 2) (Node.Symbol (-2))), []⟩ := by
  refine ⟨?_, ?_, ?_, by with_unfolding_all rfl, by with_unfolding_all rfl⟩
  · intro L1 L2 x hx
    have hmain : resolveLetName (L1 ++ x :: L2) x =
        -(Int.ofNat L1.length + 1) := by
      unfold resolveLetName
      have hlen : (L1 ++ x :: L2).length = (L1.length + 1) + L2.length := by
        simp [List.length_append]
        omega
      rw [hlen]
      have hskip := letScan_skip (L1 ++ x :: L2) x (L1.length + 1)
        ((L1.length + 1) + L2.length) (by omega) ?side
      case side =>
        intro j hj1 hj2
        have hj3 : L1.length ≤ j := by omega
        rw [List.getD_append_right _ _ _ _ hj3]
        have hj4 : j - L1.length = (j - L1.length - 1) + 1 := by omega
        rw [hj4, List.getD_cons_succ]
        have hlt : j - L1.length - 1 < L2.length := by omega
        intro heq
        exact hx (heq ▸ getD_mem_of_lt L2 [] _ hlt)
      rw [hskip]
      have hhit : (L1 ++ x :: L2).getD L1.length [] = x := by
        rw [List.getD_append_right _ _ _ _ (Nat.le_refl _)]
        simp
      simp only [letScan]
      rw [if_pos hhit]
    refine ⟨hmain, ?_⟩
    rw [hmain]
    have hnn : (0 : Int) ≤ Int.ofNat L1.length := Int.ofNat_nonneg _
    omega
  · intro L x hx
    exact letScan_notmem L x hx L.length (Nat.le_refl _)
  · intro input s name mark h
    unfold parse_symbol
    rw [if_pos h]

/-- C6 witness: the scoping laws evaluated on the concrete stack
`["y", "x", "z"]` (innermost "z"): `x` resolves to `-2` and a missing
name to UNDEF; `parse_symbol` short-circuits on a let hit. -/
theorem let_binding_scoping_witness :
    (resolveLetName (["y".toList] ++ "x".toList :: ["z".toList]) "x".toList =
        -(Int.ofNat (["y".toList] : List (List Char)).length + 1) ∧
      resolveLetName (["y".toList] ++ "x".toList :: ["z".toList]) "x".toList < 0) ∧
    resolveLetName ["y".toList] "x".toList = symbolUNDEF ∧
    parse_symbol [] ((init_pc (implicit_frame none) []).push_let_binding "x".toList)
      "x".toList ⟨0, zeroChar⟩ =
      (((init_pc (implicit_frame none) []).push_let_binding "x".toList).resolve_let_ref
        "x".toList, "x".toList,
       (init_pc (implicit_frame none) []).push_let_binding "x".toList) :=
  ⟨let_binding_scoping.1 ["y".toList] ["z".toList] "x".toList (by decide),
   let_binding_scoping.2.1 ["y".toList] "x".toList (by decide),
   let_binding_scoping.2.2.1 [] _ "x".toList ⟨0, zeroChar⟩ (by decide)⟩

/-- Helper: `Params::lookup` misses exactly the absent names. -/
theorem lookupIdx_eq_none (names : List (List Char)) (tok : List Char) :
    lookupIdx names tok = none ↔ tok ∉ names := by
  induction names with
  | nil => simp [lookupIdx]
  | cons p rest ih =>
    by_cases h : p = tok
    · subst h
      simp [lookupIdx]
    · simp only [lookupIdx, if_neg h, Option.map_eq_none', ih,
        List.mem_cons]
      constructor
      · intro hn hc
        rcases hc with hc | hc
        · exact h hc.symm
        · exact hn hc
      · intro hn hc
        exact hn (Or.inr hc)

/-- Helper: `lookup_add` appends exactly the absent names. -/
theorem lookup_add_snd (names : List (List Char)) (tok : List Char) :
    (lookup_add names tok).2 =
      if tok ∈ names then names else names ++ [tok] := by
  unfold lookup_add
  rcases h : lookupIdx names tok with _ | i
  · rw [lookupIdx_eq_none] at h
    rw [if_neg h]
  · have hm : tok ∈ names := by
      by_contra hc
      rw [← lookupIdx_eq_none] at hc
      rw [h] at hc
      cases hc
    rw [if_pos hm]

/-- Helper: the `ExplicitParams` constructor loop succeeds (every
`assert(lookup(param) == UNDEF)` holds) iff its ok-flag was true, the
incoming names are pairwise distinct and none is already present. -/
theorem explicit_build_go_ok (ps : List (List Char)) :
    ∀ (names : List (List Char)) (ok : Bool),
      ((explicit_build_go ps names ok).2 = true ↔
        (ok = true ∧ ps.Nodup ∧ ∀ p ∈ ps, p ∉ names)) := by
  induction ps with
  | nil =>
    intro names ok
    simp [explicit_build_go]
  | cons p rest ih =>
    intro names ok
    rw [explicit_build_go, ih, lookup_add_snd]
    by_cases hp : p ∈ names
    · have h1 : (lookupIdx names p).isNone = false := by
        rw [Option.isNone_eq_false_iff, Option.isSome_iff_ne_none]
        intro hc
        exact (lookupIdx_eq_none names p).mp hc hp
      rw [if_pos hp, h1]
      simp only [Bool.and_false]
      constructor
      · intro hcon
        exact absurd hcon.1 (by simp)
      · intro hcon
        exact absurd hp (hcon.2.2 p (List.mem_cons_self p rest))
    · have h1 : (lookupIdx names p).isNone = true := by
        rw [Option.isNone_iff_eq_none, lookupIdx_eq_none]
        exact hp
      rw [if_neg hp, h1, Bool.and_true]
      constructor
      · rintro ⟨hok, hnd, hall⟩
        refine ⟨hok, List.nodup_cons.mpr ⟨?_, hnd⟩, ?_⟩
        · intro hcon
          have := hall p hcon
          simp [List.mem_append] at this
        · intro q hq
          rcases List.mem_cons.mp hq with hq | hq
          · subst hq
            exact hp
          · intro hqn
            exact (hall q hq) (List.mem_append.mpr (Or.inl hqn))
      · rintro ⟨hok, hnd, hall⟩
        rcases List.nodup_cons.mp hnd with ⟨hpn, hnd'⟩
        refine ⟨hok, hnd', ?_⟩
        intro q hq hqn
        rcases List.mem_append.mp hqn with hqn | hqn
        · exact hall q (List.mem_cons_of_mem p hq) hqn
        · rcases List.mem_singleton.mp hqn with rfl
          exact hpn hq

/-- C10: a duplicate name in an explicit parameter list violates the
`ExplicitParams` constructor's assertion (the incremental
`lookup == UNDEF` checks pass iff the list is duplicate-free), so the
public `parse(param_names, expression)` entry aborts before parsing
(no Function at all, modelled as `none`), and a duplicate lambda
identifier list such as `f(a,a)(a)` trips the same assertion during the
parse (`aborted` is set inside `parse_lambda`), not the Error-node
failure channel. -/
theorem explicit_params_duplicate_asserts :
    (∀ ps : List (List Char), explicit_assert_ok ps = true ↔ ps.Nodup) ∧
    Function.parse_with_params ["a".toList, "a".toList] "a".toList 500 =
      none ∧
    (parse_run (explicit_frame ["t".toList] none)
      "map(t, f(a,a)(a))".toList 500).aborted = true ∧
    (init_pc (explicit_frame ["t".toList] none)
      "map(t, f(a,a)(a))".toList).aborted = false := by
  refine ⟨?_, rfl, rfl, rfl⟩
  intro ps
  unfold explicit_assert_ok explicit_build
  rw [explicit_build_go_ok]
  simp

/-- C10 witness: the assertion predicate evaluated at the duplicate list
`["a","a"]` via the general law. -/
theorem explicit_params_duplicate_asserts_witness :
    explicit_assert_ok ["a".toList, "a".toList] = true ↔
      (["a".toList, "a".toList] : List (List Char)).Nodup :=
  explicit_params_duplicate_asserts.1 ["a".toList, "a".toList]

/-- Helper: an alphabetic character is not whitespace. -/
theorem isAlphaC_not_space (c : Char) (h : isAlphaC c = true) :
    isSpaceC c = false := by
  unfold isAlphaC at h
  have h' := of_decide_eq_true h
  unfold isSpaceC
  simp only [Bool.or_eq_false_iff, beq_eq_false_iff_ne, ne_eq]
  omega

/-- Helper: `takeWhile` consumes exactly an all-satisfying prefix up to a
failing character. -/
theorem takeWhile_all_append (p : Char → Bool) (xs : List Char) (y : Char)
    (ys : List Char) (hxs : ∀ c ∈ xs, p c = true) (hy : p y = false) :
    (xs ++ y :: ys).takeWhile p = xs := by
  induction xs with
  | nil => simp [List.takeWhile_cons, hy]
  | cons a tl ih =>
    have ha : p a = true := hxs a (List.mem_cons_self a tl)
    simp only [List.cons_append, List.takeWhile_cons, ha, if_true]
    rw [ih (fun c hc => hxs c (List.mem_cons_of_mem a hc))]

/-- C4 counterexample: on the literal shape `W( B )` the body spaces
adjacent to the parentheses are NOT stripped: `unwrap` returns the body
`" B "`, not `"B"` as the claim states. -/
theorem unwrap_keeps_paren_adjacent_spaces :
    Function.unwrap "W( B )".toList = (true, "W".toList, " B ".toList, []) ∧
    " B ".toList ≠ "B".toList :=
  ⟨rfl, by decide⟩

/-- C4 (amended): for every input of the exact shape `W(B)` — a non-empty
alphabetic wrapper immediately followed by `(`, an arbitrary body `B`, and
a final `)` — `unwrap` succeeds with wrapper `W`, body exactly `B` (ALL
characters between the parentheses, whitespace adjacent to the
parentheses included), and an empty error string. -/
theorem unwrap_strips_envelope (W B : List Char) (hW : W ≠ [])
    (hA : ∀ c ∈ W, isAlphaC c = true) :
    Function.unwrap (W ++ '(' :: (B ++ [')'])) = (true, W, B, []) := by
  obtain ⟨w, W', hWeq⟩ : ∃ w W', W = w :: W' := by
    cases W with
    | nil => exact absurd rfl hW
    | cons a b => exact ⟨a, b, rfl⟩
  have hw : isAlphaC w = true := hA w (by rw [hWeq]; exact List.mem_cons_self _ _)
  have h0 : skipIdx isSpaceC (W ++ '(' :: (B ++ [')'])) 0 = 0 := by
    unfold skipIdx
    rw [List.drop_zero, hWeq, List.cons_append, List.takeWhile_cons,
      isAlphaC_not_space w hw]
    simp
  have h1 : skipIdx isAlphaC (W ++ '(' :: (B ++ [')'])) 0 = W.length := by
    unfold skipIdx
    rw [List.drop_zero,
      takeWhile_all_append isAlphaC W '(' (B ++ [')']) hA (by decide)]
    simp
  have h2 : skipIdx isSpaceC (W ++ '(' :: (B ++ [')'])) W.length = W.length := by
    unfold skipIdx
    rw [List.drop_left, List.takeWhile_cons]
    rw [(by decide : isSpaceC '(' = false)]
    simp
  have hlen : (W ++ '(' :: (B ++ [')'])).length = W.length + B.length + 2 := by
    simp [List.length_append]
    omega
  have hassoc : (W ++ '(' :: (B ++ [')'])) = (W ++ '(' :: B) ++ [')'] := by
    simp [List.append_assoc]
  have hlen2 : (W ++ '(' :: B).length = W.length + B.length + 1 := by
    simp [List.length_append]
    omega
  have hparen : charAt (W ++ '(' :: (B ++ [')'])) W.length = '(' := by
    unfold charAt
    rw [List.getD_append_right _ _ _ _ (Nat.le_refl _)]
    simp
  have hclose : charAt (W ++ '(' :: (B ++ [')']))
      (W.length + B.length + 1) = ')' := by
    unfold charAt
    rw [hassoc, List.getD_append_right _ _ _ _ (by omega)]
    rw [hlen2]
    have hz : W.length + B.length + 1 - (W.length + B.length + 1) = 0 := by
      omega
    rw [hz]
    rfl
  have hbody_end :
      back_scan isSpaceC (W ++ '(' :: (B ++ [')'])) (W.length + 1)
        ((W ++ '(' :: (B ++ [')'])).length - 1) = W.length + B.length + 1 := by
    rw [hlen]
    have hm1 : W.length + B.length + 2 - 1 = (W.length + B.length) + 1 := by
      omega
    rw [hm1]
    simp only [back_scan]
    rw [if_neg ?nospace]
    case nospace =>
      rintro ⟨-, hsp⟩
      rw [(by omega : W.length + B.length + 1 = W.length + B.length + 1)] at hsp
      rw [hclose] at hsp
      simp [isSpaceC] at hsp
  have htake1 : ((W ++ '(' :: (B ++ [')'])).take W.length).drop 0 = W := by
    rw [List.drop_zero, List.take_left]
  have hbody : ((W ++ '(' :: (B ++ [')'])).take (W.length + B.length + 1)).drop
      (W.length + 1) = B := by
    rw [hassoc, List.take_left' hlen2]
    have hsplit : W ++ '(' :: B = (W ++ ['(']) ++ B := by
      simp
    rw [hsplit, List.drop_left' (by simp)]
  unfold Function.unwrap
  simp only []
  rw [h0, h1]
  rw [if_neg (fun h => hW (List.length_eq_zero.mp h))]
  rw [h2]
  rw [if_neg ?opening]
  case opening =>
    rintro (hc | hc)
    · rw [hlen] at hc
      omega
    · rw [hparen] at hc
      exact hc rfl
  rw [hbody_end]
  rw [if_neg ?closing]
  case closing =>
    intro hc
    rw [hclose] at hc
    exact hc rfl
  rw [htake1, hbody]

/-- C4 amended, witness: the envelope law applied at `max(x+y)`. -/
theorem unwrap_strips_envelope_witness :
    Function.unwrap ("max".toList ++ '(' :: ("x+y".toList ++ [')'])) =
      (true, "max".toList, "x+y".toList, []) :=
  unwrap_strips_envelope "max".toList "x+y".toList (by decide) (by decide)

end eval
end vespalib
